import Mathlib

/-!
Verification of the christmas25 wishlist application.

The repository holds two revisions of the same application: `app.py`
(gradio UI) and `streamlit_app.py` (streamlit UI).  Both keep all state in
a flat list of wish records, persisted wholesale on every mutation.  This
file embeds the record type and the pure state transformations performed
by the mutation handlers, and proves the documented CRUD properties about
them.  Monetary amounts are embedded as exact rationals.
-/

set_option autoImplicit false

/-- An entry of a wish's `images` list.  The old revision stores plain path
strings, the new revision stores `{data, type}` objects. -/
inductive ImageVal where
  | path (p : String)
  | obj (data : String) (mime : String)
deriving DecidableEq, Repr

/-- A record of the flat wishlist collection (`wish` or `suggestion`).
Optional JSON fields are `Option`s; a boolean field that may be absent is
modelled with its Python-falsy default where code reads it with `.get`. -/
structure Wish where
  id : String
  type : Option String
  owner_user : Option String
  suggested_by : Option String
  suggested_for : Option String
  wish_name : String
  description : String
  link : String
  price : Option ℚ
  actual_price : Option ℚ
  note : String
  color : String
  buy_self : Bool
  others_can_buy : Bool
  images : List ImageVal
  responsible_person : Option String
  claimed_by : Option String
  claimed_at : Option String
  purchased : Bool
  reimbursed : Option Bool
  created_at : Option String
deriving DecidableEq, Repr

/-- `for w in state: if p w: mutate w; break` — the in-place update of the
first record satisfying `p`, shared shape of the claim / purchase /
unpurchase handlers in both revisions. -/
def updateFirst (p : Wish → Bool) (f : Wish → Wish) : List Wish → List Wish
  | [] => []
  | w :: rest => if p w then f w :: rest else w :: updateFirst p f rest

namespace App

/-- `app.py` `delete_wish`: keep every record unless both the id and the
owner match the acting user. -/
def delete_wish (wish_id : String) (state : List Wish) (user : String) :
    List Wish :=
  state.filter (fun w => !(w.id == wish_id && w.owner_user == some user))

/-- `app.py` `claim_wish`: set `claimed_by` and `claimed_at` on the first
record matching the id that is still unclaimed; no-op otherwise. -/
def claim_wish (wish_id : String) (state : List Wish) (user : String)
    (now : String) : List Wish :=
  updateFirst (fun w => w.id == wish_id && w.claimed_by.isNone)
    (fun w => { w with claimed_by := some user, claimed_at := some now })
    state

/-- `app.py` `mark_as_unpurchased`: clear `purchased` on the first record
matching the id that is claimed by the acting user. -/
def mark_as_unpurchased (wish_id : String) (state : List Wish)
    (user : String) : List Wish :=
  updateFirst (fun w => w.id == wish_id && w.claimed_by == some user)
    (fun w => { w with purchased := false })
    state

/-- Validation failures of `app.py` `add_wish` (raised as `gr.Error`). -/
inductive AddError where
  | missingNameOrDesc
  | missingImages
deriving DecidableEq, Repr

/-- `app.py` `add_wish`: validate, build the new record, append. -/
def add_wish (state : List Wish) (user : String) (newId : String)
    (name link desc note color : String) (buy_option : String)
    (images : List String) (responsible_person : Option String) :
    Except AddError (List Wish) :=
  let is_for_others := buy_option == "Andere dürfen es kaufen"
  if name = "" ∨ desc = "" then .error .missingNameOrDesc
  else if is_for_others ∧ images = [] then .error .missingImages
  else
    let new_wish : Wish :=
      { id := newId, type := none, owner_user := some user,
        suggested_by := none, suggested_for := none,
        wish_name := name, description := desc, link := link,
        price := none, actual_price := none, note := note, color := color,
        buy_self := !is_for_others, others_can_buy := is_for_others,
        images := images.map ImageVal.path,
        responsible_person := responsible_person,
        claimed_by := none, claimed_at := none, purchased := false,
        reimbursed := none, created_at := none }
    .ok (state ++ [new_wish])

/-- `app.py` `update_wish`: merge the form fields over the first record
matching the id that is owned by the acting user; images are replaced
only when a new upload is present. -/
def update_wish (wish_id : String) (state : List Wish) (user : String)
    (name link desc note color : String) (buy_option : String)
    (images : List String) (responsible_person : Option String) :
    List Wish :=
  let is_for_others := buy_option == "Andere dürfen es kaufen"
  updateFirst (fun w => w.id == wish_id && w.owner_user == some user)
    (fun w =>
      let w' := { w with
        wish_name := name, link := link, description := desc, note := note,
        color := color, buy_self := !is_for_others,
        others_can_buy := is_for_others,
        responsible_person := responsible_person }
      if images ≠ [] then { w' with images := images.map ImageVal.path }
      else w')
    state

end App

namespace Streamlit

/-- Per-user budget ceiling, `streamlit_app.py` `BUDGET_LIMIT`. -/
def BUDGET_LIMIT : ℚ := 1500

/-- The budget total computed before adding a wish: over the acting user's
own wishes, `actual_price` if purchased else `price`, missing fields
defaulting to `0.0`. -/
def budget_total (user : String) (data : List Wish) : ℚ :=
  (data.filter (fun w => w.owner_user == some user)).foldl
    (fun acc w =>
      acc + (if w.purchased then w.actual_price.getD 0 else w.price.getD 0))
    0

/-- Validation failures of the streamlit add-wish form (each shown with
`st.error` followed by `st.stop()`, leaving the collection untouched).
The budget error carries the remaining headroom reported to the user. -/
inductive AddError where
  | emptyName
  | emptyDesc
  | budgetExceeded (remaining : ℚ)
deriving DecidableEq, Repr

/-- `streamlit_app.py` `wishlist_page`, add-new-wish path of the wish form:
name/description validation, then the budget check, then append. -/
def add_wish (data : List Wish) (user : String) (newId : String)
    (wish_name wish_desc wish_link : String) (wish_price : ℚ)
    (image_data : List ImageVal) (buy_option : String)
    (responsible_person : String) : Except AddError (List Wish) :=
  if wish_name = "" then .error .emptyName
  else if wish_desc = "" then .error .emptyDesc
  else
    let current_total := budget_total user data
    if BUDGET_LIMIT < current_total + wish_price then
      .error (.budgetExceeded (BUDGET_LIMIT - current_total))
    else
      let new_wish : Wish :=
        { id := newId, type := none, owner_user := some user,
          suggested_by := none, suggested_for := none,
          wish_name := wish_name, link := wish_link,
          description := wish_desc, price := some wish_price,
          actual_price := none, note := "", color := "",
          buy_self := buy_option == "Ich kaufe es selbst",
          others_can_buy := buy_option == "Andere dürfen es kaufen",
          images := image_data,
          responsible_person :=
            if responsible_person = "" then none else some responsible_person,
          claimed_by := none, claimed_at := none, purchased := false,
          reimbursed := none, created_at := none }
      .ok (data ++ [new_wish])

/-- `streamlit_app.py` `wishlist_page`, edit path of the wish form: merge
the form fields over the first record matching the edited id.  The
`is_suggestion` flag was computed from the edited record before the form
was rendered; the suggestion branch keeps the suggestion-specific fields,
the wish branch also replaces the buy flags and, when a new upload is
present, the images. -/
def update_wish (edit_id : String) (data : List Wish) (is_suggestion : Bool)
    (wish_name wish_desc wish_link : String) (wish_price : ℚ)
    (image_data : List ImageVal) (buy_option : String)
    (responsible_person : String) : List Wish :=
  updateFirst (fun w => w.id == edit_id)
    (fun w =>
      if is_suggestion then
        { w with wish_name := wish_name, description := wish_desc,
                 link := wish_link, price := some wish_price,
                 type := some "suggestion" }
      else
        let w' := { w with
          wish_name := wish_name, description := wish_desc,
          link := wish_link, price := some wish_price,
          buy_self := buy_option == "Ich kaufe es selbst",
          others_can_buy := buy_option == "Andere dürfen es kaufen",
          responsible_person :=
            if responsible_person = "" then none else some responsible_person }
        if image_data ≠ [] then { w' with images := image_data } else w')
    data

/-- `streamlit_app.py` `wishlist_page`: the suggestions-from-others
projection — every record of type `suggestion` that is not suggested for
the viewing user. -/
def visible_suggestions (user : String) (data : List Wish) : List Wish :=
  data.filter
    (fun w => w.type == some "suggestion" && w.suggested_for != some user)

/-- `streamlit_app.py` `wishlist_page`: the my-claimed projection. -/
def my_claimed (user : String) (data : List Wish) : List Wish :=
  data.filter (fun w => w.claimed_by == some user)

/-- `streamlit_app.py` `wishlist_page`: the expense-summary base — records
claimed by the user and purchased. -/
def purchased_items (user : String) (data : List Wish) : List Wish :=
  data.filter (fun w => w.claimed_by == some user && w.purchased)

/-- `streamlit_app.py` `wishlist_page`, purchase submit inside the
my-claimed section: on the first record matching the id, set `purchased`
and `actual_price`, and initialize `reimbursed` to `False` when the field
is absent. -/
def mark_purchased_claimed (wish_id : String) (data : List Wish)
    (actual_price : ℚ) : List Wish :=
  updateFirst (fun w => w.id == wish_id)
    (fun w => { w with purchased := true, actual_price := some actual_price,
                       reimbursed := some (w.reimbursed.getD false) })
    data

/-- `streamlit_app.py` `wishlist_page`, self-purchase submit on an own
`buy_self` wish: on the first record matching the id, set `purchased`,
`actual_price`, and `claimed_by` to the acting user. -/
def self_purchase (wish_id : String) (data : List Wish) (user : String)
    (actual_price : ℚ) : List Wish :=
  updateFirst (fun w => w.id == wish_id)
    (fun w => { w with purchased := true, actual_price := some actual_price,
                       claimed_by := some user })
    data

end Streamlit

namespace Streamlit

/-- A value of the `day_assignments` map: the legacy format is a bare dish
id string, the current format is a map from category to an ordered list of
dish ids, and the delete handler writes `None`. -/
inductive Assignment where
  | old (dishId : String)
  | newFmt (m : List (String × List String))
  | null
deriving DecidableEq, Repr

/-- A dish of `meal_proposals`.  `name` is read with `.get('name', '')`,
so an absent name is the empty string; `category` may be absent. -/
structure Dish where
  id : String
  name : String
  category : Option String
  description : String
  proposed_by : String
  responsible : Option String
  created_at : String
  votes : List String
deriving DecidableEq, Repr

/-- A proposal of the legacy per-day `meals` structure; fields are read
with `.get` and string defaults. -/
structure OldProposal where
  dish_name : String
  description : String
  proposed_by : String
  responsible : Option String
  created_at : Option String
deriving DecidableEq, Repr

/-- A day entry of the legacy `meals` structure: an optional proposal list
and an optional per-day vote dict (only its keys are read). -/
structure DayData where
  proposals : Option (List OldProposal)
  votes : Option (List String)
deriving DecidableEq, Repr

/-- The planning document.  `Option` distinguishes an absent key from a
present-but-empty value; the maps are association lists in document
(insertion) order. -/
structure PlanningDoc where
  meal_proposals : Option (List Dish)
  day_assignments : Option (List (String × Assignment))
  meals : Option (List (String × DayData))
deriving DecidableEq, Repr

/-- Dict lookup on an association list (first matching key). -/
def lookupKey {β : Type} : List (String × β) → String → Option β
  | [], _ => none
  | (a, b) :: rest, k => if a = k then some b else lookupKey rest k

/-- Dict assignment on an association list: replace the value of an
existing key in place, or append a new binding. -/
def upsert {β : Type} : List (String × β) → String → β → List (String × β)
  | [], k, v => [(k, v)]
  | (a, b) :: rest, k, v =>
    if a = k then (a, v) :: rest else (a, b) :: upsert rest k v

/-- One step of building the `seen_dishes` dict of `migrate_meal_data`:
record name → id for a dish with a non-empty name. -/
def seenStep (acc : List (String × String)) (d : Dish) :
    List (String × String) :=
  if d.name ≠ "" then upsert acc d.name d.id else acc

/-- The `seen_dishes` dict of `migrate_meal_data`: dish name → dish id for
every already-present dish with a non-empty name. -/
def build_seen (props : List Dish) : List (String × String) :=
  props.foldl seenStep []

/-- The mutable state threaded through `migrate_meal_data`'s processing of
the legacy `meals` structure: the growing proposal list, the growing
day-assignment map, the `seen_dishes` dict, and the count of fresh ids
drawn so far. -/
structure MigState where
  props : List Dish
  assigns : List (String × Assignment)
  seen : List (String × String)
  k : Nat
deriving DecidableEq, Repr

/-- First half of the inner proposal loop of `migrate_meal_data`: add the
dish to the proposals (and `seen_dishes`) when its name is non-empty and
unseen, drawing a fresh id. -/
def addStep (gen : Nat → String) (now : String)
    (day_votes : Option (List String)) (st : MigState) (p : OldProposal) :
    MigState :=
  let dish_name := p.dish_name
  if dish_name ≠ "" ∧ lookupKey st.seen dish_name = none then
    let dish_id := gen st.k
    let new_dish : Dish :=
      { id := dish_id, name := dish_name, category := some "Hauptspeise",
        description := p.description, proposed_by := p.proposed_by,
        responsible := p.responsible,
        created_at := p.created_at.getD now,
        votes := day_votes.getD [] }
    { st with props := st.props ++ [new_dish],
              seen := upsert st.seen dish_name dish_id,
              k := st.k + 1 }
  else st

/-- Second half of the inner proposal loop of `migrate_meal_data`: record
a (legacy string format) day assignment when the name is in `seen_dishes`,
the day's proposal list is non-empty, and the day is not yet assigned. -/
def assignStep (day_date : String) (nprops : Nat) (st : MigState)
    (dish_name : String) : MigState :=
  match lookupKey st.seen dish_name with
  | some dishId =>
    if 0 < nprops then
      if lookupKey st.assigns day_date = none then
        { st with
          assigns := st.assigns ++ [(day_date, Assignment.old dishId)] }
      else st
    else st
  | none => st

/-- One iteration of the inner proposal loop of `migrate_meal_data`: the
add block followed by the day-assignment block. -/
def process_proposal (gen : Nat → String) (now : String) (day_date : String)
    (day_votes : Option (List String)) (nprops : Nat) (st : MigState)
    (p : OldProposal) : MigState :=
  assignStep day_date nprops (addStep gen now day_votes st p) p.dish_name

/-- One iteration of the outer day loop of `migrate_meal_data`: skip days
without a non-empty proposal list, otherwise fold the proposal loop. -/
def process_day (gen : Nat → String) (now : String) (st : MigState)
    (entry : String × DayData) : MigState :=
  match entry.2.proposals with
  | some ps =>
    if ps ≠ [] then
      ps.foldl (process_proposal gen now entry.1 entry.2.votes ps.length) st
    else st
  | none => st

/-- The final loop of `migrate_meal_data`: convert a legacy string-valued
day assignment to the category-keyed format, looking the category up in
the (final) proposal list; other values are left as they are. -/
def convert_assignment (props : List Dish) (e : String × Assignment) :
    String × Assignment :=
  match e.2 with
  | .old dishId =>
    let category :=
      match props.find? (fun d => d.id == dishId) with
      | some d => d.category.getD "Hauptspeise"
      | none => "Hauptspeise"
    (e.1, .newFmt [(category, [dishId])])
  | _ => e

/-- The category-defaulting loop of `migrate_meal_data`: give a dish
without a category the default `Hauptspeise`. -/
def catDefault (dish : Dish) : Dish :=
  { dish with category := some (dish.category.getD "Hauptspeise") }

/-- The guarded fold over the legacy `meals` structure (run only when the
key is present with a non-empty value). -/
def mealsFold (gen : Nat → String) (now : String) (st0 : MigState)
    (meals : Option (List (String × DayData))) : MigState :=
  match meals with
  | some ms => if ms ≠ [] then ms.foldl (process_day gen now) st0 else st0
  | none => st0

/-- `streamlit_app.py` `migrate_meal_data`.  `gen` supplies the fresh
`uuid4` ids in order and `now` is the `datetime.now()` default timestamp;
the Python function mutates and returns its argument, embedded here as a
pure document transformation. -/
def migrate_meal_data (gen : Nat → String) (now : String)
    (d : PlanningDoc) : PlanningDoc :=
  let props0 := d.meal_proposals.getD []
  let assigns0 := d.day_assignments.getD []
  let props1 := props0.map catDefault
  let st0 : MigState := ⟨props1, assigns0, build_seen props1, 0⟩
  let st1 := mealsFold gen now st0 d.meals
  { meal_proposals := some st1.props,
    day_assignments := some (st1.assigns.map (convert_assignment st1.props)),
    meals := d.meals }

/-- `streamlit_app.py` `meal_planning_page`, dish delete handler: filter
the dish out of `meal_proposals`, then null out every day assignment whose
value equals the dish id (an equality that only the legacy string format
can satisfy). -/
def delete_dish (props : List Dish)
    (assigns : List (String × Assignment)) (dish_id : String) :
    List Dish × List (String × Assignment) :=
  (props.filter (fun d => d.id != dish_id),
   assigns.map (fun e =>
     if e.2 = Assignment.old dish_id then (e.1, Assignment.null) else e))

/-- A dish id is referenced by a day-assignment value when it is the
legacy string value itself or occurs in one of the category lists. -/
def assignmentMentions (dishId : String) : Assignment → Bool
  | .old s => s == dishId
  | .newFmt m => m.any (fun c => c.2.contains dishId)
  | .null => false

end Streamlit

/-- A fully defaulted wish record used to build concrete witnesses. -/
def baseWish : Wish :=
  { id := "w0", type := none, owner_user := none, suggested_by := none,
    suggested_for := none, wish_name := "Buch", description := "Roman",
    link := "", price := none, actual_price := none, note := "", color := "",
    buy_self := false, others_can_buy := true, images := [],
    responsible_person := none, claimed_by := none, claimed_at := none,
    purchased := false, reimbursed := none, created_at := none }

/-- A concrete suggestion record (suggested by `Lukas` for `Pia`). -/
def sampleSuggestion : Wish :=
  { baseWish with
      id := "s1",
      type := some "suggestion",
      suggested_by := some "Lukas",
      suggested_for := some "Pia" }

/-- A concrete wish owned by `Lukas`. -/
def lukasWish : Wish :=
  { baseWish with id := "w1", owner_user := some "Lukas" }

/-- An unclaimed concrete wish owned by `Lukas` with id `w2`. -/
def lukasWish2 : Wish := { lukasWish with id := "w2" }

/-- A concrete purchased wish of `Lukas` claimed by `Pia`, id `w3`. -/
def claimedWish3 : Wish :=
  { lukasWish with
      id := "w3",
      claimed_by := some "Pia",
      purchased := true }

/-- A concrete unpurchased wish of `Lukas` claimed by `Pia`, id `w4`,
with no `reimbursed` field. -/
def claimedWish4 : Wish :=
  { lukasWish with id := "w4", claimed_by := some "Pia" }

/-- A concrete `buy_self` wish owned by `Pia`, id `w5`. -/
def piaSelfWish : Wish :=
  { baseWish with
      id := "w5",
      owner_user := some "Pia",
      buy_self := true,
      others_can_buy := false }

/-- The record produced by `Pia`'s self-purchase of `w5` at 30. -/
def piaSelfResult : Wish :=
  { piaSelfWish with
      purchased := true,
      actual_price := some (30 : ℚ),
      claimed_by := some "Pia" }

/-- The wish produced by a concrete successful `app.py` add. -/
def c8AddedWish : Wish :=
  { id := "id1", type := none, owner_user := some "Pia",
    suggested_by := none, suggested_for := none, wish_name := "Buch",
    description := "Roman", link := "", price := none, actual_price := none,
    note := "", color := "", buy_self := false, others_can_buy := true,
    images := [ImageVal.path "i"], responsible_person := none,
    claimed_by := none, claimed_at := none, purchased := false,
    reimbursed := none, created_at := none }

/-- A concrete dish proposal, id `d1`. -/
def gansDish : Streamlit.Dish :=
  { id := "d1", name := "Gans", category := some "Hauptspeise",
    description := "", proposed_by := "Pia", responsible := none,
    created_at := "t0", votes := [] }

theorem updateFirst_of_none (p : Wish → Bool) (f : Wish → Wish) :
    ∀ l : List Wish, (∀ w ∈ l, p w = false) → updateFirst p f l = l := by
  intro l
  induction l with
  | nil => intro _; rfl
  | cons w rest ih =>
    intro h
    have hw : p w = false := h w (by simp)
    simp [updateFirst, hw, ih (fun x hx => h x (by simp [hx]))]

theorem updateFirst_split (p : Wish → Bool) (f : Wish → Wish)
    (l1 l2 : List Wish) (r : Wish)
    (h1 : ∀ w ∈ l1, p w = false) (hr : p r = true) :
    updateFirst p f (l1 ++ r :: l2) = l1 ++ f r :: l2 := by
  induction l1 with
  | nil => simp [updateFirst, hr]
  | cons w rest ih =>
    have hw : p w = false := h1 w (by simp)
    simp [updateFirst, hw, ih (fun x hx => h1 x (by simp [hx]))]

theorem updateFirst_mem (p : Wish → Bool) (f : Wish → Wish) (l : List Wish) :
    ∀ w ∈ updateFirst p f l, w ∈ l ∨ ∃ x ∈ l, w = f x := by
  induction l with
  | nil => simp [updateFirst]
  | cons a rest ih =>
    intro w hw
    by_cases hp : p a = true
    · simp only [updateFirst, hp, if_pos] at hw
      rcases List.mem_cons.mp hw with h | h
      · exact Or.inr ⟨a, by simp, h⟩
      · exact Or.inl (by simp [h])
    · have hp' : p a = false := by
        rwa [Bool.not_eq_true] at hp
      simp only [updateFirst, hp', Bool.false_eq_true, if_false] at hw
      rcases List.mem_cons.mp hw with h | h
      · exact Or.inl (by simp [h])
      · rcases ih w h with h' | ⟨x, hx, hfx⟩
        · exact Or.inl (by simp [h'])
        · exact Or.inr ⟨x, by simp [hx], hfx⟩

/-! ## Claim theorems -/

/-- C1: a record of type `suggestion` with `suggested_for = u` never
appears in the suggestions-from-others projection computed for `u`
(whatever its claim or purchase state), and, while unclaimed, appears in
the projection of every other user `v`. -/
theorem c1_suggestion_concealment (data : List Wish) (s : Wish) (u : String)
    (hs : s ∈ data) (htype : s.type = some "suggestion")
    (hfor : s.suggested_for = some u) :
    s ∉ Streamlit.visible_suggestions u data ∧
    (s.claimed_by = none →
      ∀ v : String, v ≠ u → s ∈ Streamlit.visible_suggestions v data) := by
  constructor
  · intro hmem
    have h := (List.mem_filter.mp hmem).2
    simp [htype, hfor] at h
  · intro _hunclaimed v hv
    refine List.mem_filter.mpr ⟨hs, ?_⟩
    simp [htype, hfor]
    intro h
    exact hv h.symm

/-- C1 witness: a concrete suggestion for `Pia` is hidden from `Pia` and,
being unclaimed, shown to `Emmy`. -/
theorem c1_suggestion_concealment_witness :
    sampleSuggestion ∉
      Streamlit.visible_suggestions "Pia" [sampleSuggestion] ∧
    sampleSuggestion ∈
      Streamlit.visible_suggestions "Emmy" [sampleSuggestion] := by
  have h := c1_suggestion_concealment [sampleSuggestion] sampleSuggestion
    "Pia" (by simp) rfl rfl
  exact ⟨h.1, h.2 rfl "Emmy" (by decide)⟩

/-- C3: `delete` removes a record only when its `owner_user` equals the
acting user; with unique ids, deleting another user's record as a
non-owner leaves the collection unchanged. -/
theorem c3_delete_requires_ownership (user : String) (state : List Wish) :
    (∀ i : String, ∀ w ∈ state, w ∉ App.delete_wish i state user →
        w.id = i ∧ w.owner_user = some user) ∧
    (∀ r ∈ state, r.owner_user ≠ some user →
        (state.map Wish.id).Nodup →
        App.delete_wish r.id state user = state) := by
  constructor
  · intro i w hw hnot
    simp only [App.delete_wish] at hnot
    have hb : (w.id == i && w.owner_user == some user) = true := by
      by_contra hfalse
      refine hnot (List.mem_filter.mpr ⟨hw, ?_⟩)
      simp only [Bool.not_eq_true'] at hfalse ⊢
      simpa using hfalse
    have h2 : w.id = i ∧ w.owner_user = some user := by simpa using hb
    exact h2
  · intro r hr hown hnodup
    have hkeep : ∀ w ∈ state,
        ¬(w.id = r.id ∧ w.owner_user = some user) := by
      rintro w hw ⟨h1, h2⟩
      have hwr : w = r := List.inj_on_of_nodup_map hnodup hw hr h1
      exact hown (hwr ▸ h2)
    simp only [App.delete_wish]
    apply List.filter_eq_self.mpr
    intro w hw
    have := hkeep w hw
    simp only [Bool.not_eq_true', Bool.and_eq_false_iff,
      beq_eq_false_iff_ne, ne_eq]
    tauto

/-- C3 witness: `Pia` deleting `Lukas`'s wish by its id leaves the
collection unchanged. -/
theorem c3_delete_requires_ownership_witness :
    App.delete_wish lukasWish.id [lukasWish] "Pia" = [lukasWish] :=
  (c3_delete_requires_ownership "Pia" [lukasWish]).2 lukasWish (by simp)
    (by decide) (by decide)

/-- C2: with a unique id, `claim` sets `claimed_by`/`claimed_at` on the
unclaimed record and a second `claim` on the same id by any user is a
no-op, so `claimed_by` stays the first claimer. -/
theorem c2_claim_first_unclaimed (i userA userB now1 now2 : String)
    (l1 l2 : List Wish) (r : Wish)
    (h1 : ∀ w ∈ l1, w.id ≠ i) (h2 : ∀ w ∈ l2, w.id ≠ i)
    (hrid : r.id = i) (hrun : r.claimed_by = none) :
    App.claim_wish i (l1 ++ r :: l2) userA now1 =
      l1 ++ { r with claimed_by := some userA, claimed_at := some now1 } :: l2 ∧
    App.claim_wish i
        (App.claim_wish i (l1 ++ r :: l2) userA now1) userB now2 =
      l1 ++ { r with claimed_by := some userA, claimed_at := some now1 } :: l2 ∧
    ∀ w ∈ App.claim_wish i
        (App.claim_wish i (l1 ++ r :: l2) userA now1) userB now2,
      w.id = i → w.claimed_by = some userA := by
  have hl1 : ∀ w ∈ l1, (w.id == i && w.claimed_by.isNone) = false := by
    intro w hw
    simp [h1 w hw]
  have hstep1 : App.claim_wish i (l1 ++ r :: l2) userA now1 =
      l1 ++ { r with claimed_by := some userA, claimed_at := some now1 } :: l2 := by
    unfold App.claim_wish
    exact updateFirst_split _ _ l1 l2 r hl1 (by simp [hrid, hrun])
  have hnoop : ∀ w ∈ l1 ++
      { r with claimed_by := some userA, claimed_at := some now1 } :: l2,
      (w.id == i && w.claimed_by.isNone) = false := by
    intro w hw
    rcases List.mem_append.mp hw with hw1 | hw2
    · exact hl1 w hw1
    · rcases List.mem_cons.mp hw2 with hw3 | hw4
      · subst hw3; simp
      · simp [h2 w hw4]
  have hstep2 : App.claim_wish i
      (App.claim_wish i (l1 ++ r :: l2) userA now1) userB now2 =
      l1 ++ { r with claimed_by := some userA, claimed_at := some now1 } :: l2 := by
    rw [hstep1]
    unfold App.claim_wish
    exact updateFirst_of_none _ _ _ hnoop
  refine ⟨hstep1, hstep2, ?_⟩
  intro w hw hwid
  rw [hstep2] at hw
  rcases List.mem_append.mp hw with hw1 | hw2
  · exact absurd hwid (h1 w hw1)
  · rcases List.mem_cons.mp hw2 with hw3 | hw4
    · subst hw3; rfl
    · exact absurd hwid (h2 w hw4)

/-- C2 witness: `Pia` claims `Lukas`'s wish, then `Emmy`'s claim on the
same id is a no-op. -/
theorem c2_claim_first_unclaimed_witness :
    App.claim_wish "w2" [lukasWish2] "Pia" "t1" =
      [{ lukasWish2 with claimed_by := some "Pia", claimed_at := some "t1" }] ∧
    App.claim_wish "w2"
        (App.claim_wish "w2" [lukasWish2] "Pia" "t1") "Emmy" "t2" =
      [{ lukasWish2 with claimed_by := some "Pia", claimed_at := some "t1" }] := by
  have h := c2_claim_first_unclaimed "w2" "Pia" "Emmy" "t1" "t2" [] []
    lukasWish2 (by simp) (by simp) rfl rfl
  exact ⟨h.1, h.2.1⟩

/-- C9: `mark_as_unpurchased` only clears `purchased` on the single record
matching the id that the acting user claimed, leaving every other field
and record untouched; with no matching record the collection is
unchanged. -/
theorem c9_unpurchase_frame (i user : String) :
    (∀ state : List Wish,
        (∀ w ∈ state, ¬(w.id = i ∧ w.claimed_by = some user)) →
        App.mark_as_unpurchased i state user = state) ∧
    (∀ (l1 l2 : List Wish) (r : Wish),
        (∀ w ∈ l1, ¬(w.id = i ∧ w.claimed_by = some user)) →
        r.id = i → r.claimed_by = some user →
        App.mark_as_unpurchased i (l1 ++ r :: l2) user =
          l1 ++ { r with purchased := false } :: l2) := by
  constructor
  · intro state h
    unfold App.mark_as_unpurchased
    apply updateFirst_of_none
    intro w hw
    have hnw := h w hw
    simp only [Bool.and_eq_false_iff, beq_eq_false_iff_ne, ne_eq]
    tauto
  · intro l1 l2 r h1 hrid hrcl
    unfold App.mark_as_unpurchased
    apply updateFirst_split
    · intro w hw
      have hnw := h1 w hw
      simp only [Bool.and_eq_false_iff, beq_eq_false_iff_ne, ne_eq]
      tauto
    · simp [hrid, hrcl]

/-- C9 witness: unpurchase is a no-op without a matching claimed record,
and on a match clears exactly the `purchased` flag. -/
theorem c9_unpurchase_frame_witness :
    App.mark_as_unpurchased "w1" [lukasWish] "Pia" = [lukasWish] ∧
    App.mark_as_unpurchased "w3" [claimedWish3] "Pia" =
      [{ claimedWish3 with purchased := false }] := by
  constructor
  · exact (c9_unpurchase_frame "w1" "Pia").1 [lukasWish] (by decide)
  · exact (c9_unpurchase_frame "w3" "Pia").2 [] [] claimedWish3
      (by simp) rfl rfl

/-- C5: with a unique id, the purchase handler of the my-claimed section
sets `purchased` and `actual_price` on the record the acting user claimed,
initializes `reimbursed` to false exactly when it was absent (keeping a
present value), and modifies no other record. -/
theorem c5_mark_purchased (i user : String) (p : ℚ) (l1 l2 : List Wish)
    (r : Wish) (h1 : ∀ w ∈ l1, w.id ≠ i) (hrid : r.id = i)
    (_hrcl : r.claimed_by = some user) :
    Streamlit.mark_purchased_claimed i (l1 ++ r :: l2) p =
      l1 ++ { r with
                purchased := true,
                actual_price := some p,
                reimbursed := some (r.reimbursed.getD false) } :: l2 ∧
    (r.reimbursed = none →
      ({ r with
           purchased := true,
           actual_price := some p,
           reimbursed := some (r.reimbursed.getD false) } : Wish).reimbursed
        = some false) ∧
    (∀ b : Bool, r.reimbursed = some b →
      ({ r with
           purchased := true,
           actual_price := some p,
           reimbursed := some (r.reimbursed.getD false) } : Wish).reimbursed
        = some b) := by
  refine ⟨?_, ?_, ?_⟩
  · unfold Streamlit.mark_purchased_claimed
    apply updateFirst_split
    · intro w hw
      simp [h1 w hw]
    · simp [hrid]
  · intro h
    simp [h]
  · intro b hb
    simp [hb]

/-- C5 witness: purchasing the claimed wish `w4` at 45 sets the purchase
fields and initializes `reimbursed := false`. -/
theorem c5_mark_purchased_witness :
    Streamlit.mark_purchased_claimed "w4" [claimedWish4] 45 =
      [{ claimedWish4 with
           purchased := true,
           actual_price := some (45 : ℚ),
           reimbursed := some (claimedWish4.reimbursed.getD false) }] ∧
    ({ claimedWish4 with
         purchased := true,
         actual_price := some (45 : ℚ),
         reimbursed := some (claimedWish4.reimbursed.getD false) } : Wish).reimbursed
      = some false := by
  have h := c5_mark_purchased "w4" "Pia" 45 [] [] claimedWish4
    (by simp) rfl rfl
  exact ⟨h.1, h.2.1 rfl⟩

/-- C10: the self-purchase path on an own `buy_self` wish sets
`claimed_by` to the owner (with `purchased` and `actual_price`); the
resulting record has `claimed_by` equal to its own `owner_user` and
appears in the owner's my-claimed and expense-summary projections. -/
theorem c10_self_purchase (i user : String) (p : ℚ) (l1 l2 : List Wish)
    (r : Wish) (h1 : ∀ w ∈ l1, w.id ≠ i) (hrid : r.id = i)
    (hown : r.owner_user = some user) (_hbs : r.buy_self = true)
    (_hnp : r.purchased = false) :
    ∃ r' : Wish,
      Streamlit.self_purchase i (l1 ++ r :: l2) user p = l1 ++ r' :: l2 ∧
      r' = { r with
               purchased := true,
               actual_price := some p,
               claimed_by := some user } ∧
      r'.claimed_by = r'.owner_user ∧
      r' ∈ Streamlit.my_claimed user (l1 ++ r' :: l2) ∧
      r' ∈ Streamlit.purchased_items user (l1 ++ r' :: l2) := by
  refine ⟨{ r with
              purchased := true,
              actual_price := some p,
              claimed_by := some user }, ?_, rfl, ?_, ?_, ?_⟩
  · unfold Streamlit.self_purchase
    apply updateFirst_split
    · intro w hw
      simp [h1 w hw]
    · simp [hrid]
  · simp [hown]
  · refine List.mem_filter.mpr ⟨?_, by simp⟩
    exact List.mem_append.mpr (Or.inr (List.mem_cons_self _ _))
  · refine List.mem_filter.mpr ⟨?_, by simp⟩
    exact List.mem_append.mpr (Or.inr (List.mem_cons_self _ _))

/-- C10 witness: `Pia` self-purchases `w5`; the result is claimed by its
own owner and appears in her my-claimed and expense projections. -/
theorem c10_self_purchase_witness :
    Streamlit.self_purchase "w5" [piaSelfWish] "Pia" 30 = [piaSelfResult] ∧
    piaSelfResult.claimed_by = piaSelfResult.owner_user ∧
    piaSelfResult ∈ Streamlit.my_claimed "Pia" [piaSelfResult] ∧
    piaSelfResult ∈ Streamlit.purchased_items "Pia" [piaSelfResult] := by
  obtain ⟨r', heq, hdef, h3, h4, h5⟩ :=
    c10_self_purchase "w5" "Pia" 30 [] [] piaSelfWish (by simp) rfl rfl rfl rfl
  have hr : r' = piaSelfResult := hdef
  rw [hr] at heq h3 h4 h5
  exact ⟨heq, h3, h4, h5⟩

/-- C8: every wish produced by a successful add or update — in either
revision — has exactly one of `buy_self`/`others_can_buy` set (the
streamlit forms offer exactly the two radio options assumed here). -/
theorem c8_xor_buy_flags (data : List Wish) (user newId : String)
    (name link desc note color bo : String) (images : List String)
    (rp : Option String) (sname sdesc slink : String) (sprice : ℚ)
    (simgs : List ImageVal) (srp edit_id : String)
    (hbo : bo = "Andere dürfen es kaufen" ∨ bo = "Ich kaufe es selbst") :
    (∀ st', App.add_wish data user newId name link desc note color bo
          images rp = .ok st' →
        ∀ w ∈ st', w ∈ data ∨ (w.buy_self ^^ w.others_can_buy) = true) ∧
    (∀ w ∈ App.update_wish edit_id data user name link desc note color bo
          images rp,
        w ∈ data ∨ (w.buy_self ^^ w.others_can_buy) = true) ∧
    (∀ st', Streamlit.add_wish data user newId sname sdesc slink sprice
          simgs bo srp = .ok st' →
        ∀ w ∈ st', w ∈ data ∨ (w.buy_self ^^ w.others_can_buy) = true) ∧
    (∀ w ∈ Streamlit.update_wish edit_id data false sname sdesc slink
          sprice simgs bo srp,
        w ∈ data ∨ (w.buy_self ^^ w.others_can_buy) = true) := by
  refine ⟨?_, ?_, ?_, ?_⟩
  · intro st' hok w hw
    simp only [App.add_wish] at hok
    by_cases hv1 : name = "" ∨ desc = ""
    · rw [if_pos hv1] at hok
      exact absurd hok (by simp)
    · rw [if_neg hv1] at hok
      by_cases hv2 : (bo == "Andere dürfen es kaufen") = true ∧ images = []
      · rw [if_pos hv2] at hok
        exact absurd hok (by simp)
      · rw [if_neg hv2] at hok
        injection hok with h
        subst h
        rcases List.mem_append.mp hw with h | h
        · exact Or.inl h
        · refine Or.inr ?_
          have hweq := List.mem_singleton.mp h
          subst hweq
          cases hb : (bo == "Andere dürfen es kaufen") <;> simp
  · intro w hw
    unfold App.update_wish at hw
    rcases updateFirst_mem _ _ data w hw with h | ⟨x, _hx, hfx⟩
    · exact Or.inl h
    · refine Or.inr ?_
      subst hfx
      by_cases him : images = []
      · simp only [him, ne_eq, not_true_eq_false, if_neg,
          not_false_eq_true]
        cases hb : (bo == "Andere dürfen es kaufen") <;> simp
      · simp only [ne_eq, him, not_false_eq_true, if_pos]
        cases hb : (bo == "Andere dürfen es kaufen") <;> simp
  · intro st' hok w hw
    simp only [Streamlit.add_wish] at hok
    by_cases hv1 : sname = ""
    · rw [if_pos hv1] at hok
      exact absurd hok (by simp)
    · rw [if_neg hv1] at hok
      by_cases hv2 : sdesc = ""
      · rw [if_pos hv2] at hok
        exact absurd hok (by simp)
      · rw [if_neg hv2] at hok
        by_cases hv3 : Streamlit.BUDGET_LIMIT <
            Streamlit.budget_total user data + sprice
        · rw [if_pos hv3] at hok
          exact absurd hok (by simp)
        · rw [if_neg hv3] at hok
          injection hok with h
          subst h
          rcases List.mem_append.mp hw with h | h
          · exact Or.inl h
          · refine Or.inr ?_
            have hweq := List.mem_singleton.mp h
            subst hweq
            rcases hbo with hb | hb <;> subst hb
            · exact show (("Andere dürfen es kaufen" == "Ich kaufe es selbst")
                  ^^ ("Andere dürfen es kaufen" == "Andere dürfen es kaufen"))
                  = true by decide
            · exact show (("Ich kaufe es selbst" == "Ich kaufe es selbst")
                  ^^ ("Ich kaufe es selbst" == "Andere dürfen es kaufen"))
                  = true by decide
  · intro w hw
    unfold Streamlit.update_wish at hw
    rcases updateFirst_mem _ _ data w hw with h | ⟨x, _hx, hfx⟩
    · exact Or.inl h
    · refine Or.inr ?_
      subst hfx
      by_cases him : simgs = []
      · simp only [Bool.false_eq_true, if_false, him, ne_eq,
          not_true_eq_false, not_false_eq_true]
        rcases hbo with hb | hb <;> subst hb <;> simp
      · simp only [Bool.false_eq_true, if_false, ne_eq, him,
          not_false_eq_true, if_pos]
        rcases hbo with hb | hb <;> subst hb <;> simp

/-- C8 witness: the wish added by a concrete successful add has exactly
one buy flag set. -/
theorem c8_xor_buy_flags_witness :
    (c8AddedWish.buy_self ^^ c8AddedWish.others_can_buy) = true := by
  have h := (c8_xor_buy_flags [] "Pia" "id1" "Buch" "" "Roman" "" ""
      "Andere dürfen es kaufen" ["i"] none "B" "R" "" 10 [] "" "e1"
      (Or.inl rfl)).1 [c8AddedWish] rfl c8AddedWish (by simp)
  rcases h with h | h
  · exact absurd h (by simp)
  · exact h

/-- C4: with the existing budget total `X` at most the limit, an add with
price `BUDGET_LIMIT - X + 0.01` is rejected reporting the remaining
headroom `BUDGET_LIMIT - X`, and an add with price `BUDGET_LIMIT - X`
succeeds. -/
theorem c4_budget_boundary (data : List Wish) (user newId : String)
    (name desc link : String) (imgs : List ImageVal) (bo rp : String)
    (hname : name ≠ "") (hdesc : desc ≠ "")
    (_hX : Streamlit.budget_total user data ≤ Streamlit.BUDGET_LIMIT) :
    Streamlit.add_wish data user newId name desc link
        (Streamlit.BUDGET_LIMIT - Streamlit.budget_total user data + 1/100)
        imgs bo rp
      = .error (.budgetExceeded
          (Streamlit.BUDGET_LIMIT - Streamlit.budget_total user data)) ∧
    ∃ st', Streamlit.add_wish data user newId name desc link
        (Streamlit.BUDGET_LIMIT - Streamlit.budget_total user data)
        imgs bo rp = .ok st' := by
  have hover : Streamlit.BUDGET_LIMIT < Streamlit.budget_total user data +
      (Streamlit.BUDGET_LIMIT - Streamlit.budget_total user data + 1/100) := by
    have h : Streamlit.budget_total user data +
        (Streamlit.BUDGET_LIMIT - Streamlit.budget_total user data + 1/100) =
        Streamlit.BUDGET_LIMIT + 1/100 := by ring
    rw [h]
    linarith
  have hfit : ¬ (Streamlit.BUDGET_LIMIT < Streamlit.budget_total user data +
      (Streamlit.BUDGET_LIMIT - Streamlit.budget_total user data)) := by
    have h : Streamlit.budget_total user data +
        (Streamlit.BUDGET_LIMIT - Streamlit.budget_total user data) =
        Streamlit.BUDGET_LIMIT := by ring
    rw [h]
    exact lt_irrefl _
  constructor
  · simp only [Streamlit.add_wish]
    rw [if_neg hname, if_neg hdesc, if_pos hover]
  · simp [Streamlit.add_wish, hname, hdesc, hfit]

/-- C4 witness: with an empty collection (total 0), adding at 1500.01 is
rejected with headroom 1500 and adding at 1500 succeeds. -/
theorem c4_budget_boundary_witness :
    Streamlit.add_wish [] "Pia" "n1" "Buch" "Roman" ""
        (Streamlit.BUDGET_LIMIT - Streamlit.budget_total "Pia" [] + 1/100)
        [] "Ich kaufe es selbst" ""
      = .error (.budgetExceeded
          (Streamlit.BUDGET_LIMIT - Streamlit.budget_total "Pia" [])) ∧
    ∃ st', Streamlit.add_wish [] "Pia" "n1" "Buch" "Roman" ""
        (Streamlit.BUDGET_LIMIT - Streamlit.budget_total "Pia" [])
        [] "Ich kaufe es selbst" "" = .ok st' :=
  c4_budget_boundary [] "Pia" "n1" "Buch" "Roman" "" []
    "Ich kaufe es selbst" "" (by decide) (by decide)
    (by norm_num [Streamlit.budget_total, Streamlit.BUDGET_LIMIT])

/-- C6 divergence: deleting dish `d1` removes it from the proposals but
leaves the current-format day assignment `{Hauptspeise: [d1]}` untouched,
so `d1` is still referenced by `day_assignments` after the call. -/
theorem c6_delete_dish_keeps_assignment :
    Streamlit.delete_dish [gansDish]
        [("2025-12-23", Streamlit.Assignment.newFmt [("Hauptspeise", ["d1"])])]
        "d1"
      = ([], [("2025-12-23",
          Streamlit.Assignment.newFmt [("Hauptspeise", ["d1"])])]) ∧
    Streamlit.assignmentMentions "d1"
        (Streamlit.Assignment.newFmt [("Hauptspeise", ["d1"])]) = true := by
  constructor
  · rfl
  · rfl

theorem foldl_preserve {σ α : Type} (f : σ → α → σ) (Q : σ → Prop)
    (mono : ∀ s a, Q s → Q (f s a)) :
    ∀ (l : List α) (s : σ), Q s → Q (l.foldl f s) := by
  intro l
  induction l with
  | nil => intro s h; exact h
  | cons a rest ih => intro s h; exact ih (f s a) (mono s a h)

theorem foldl_establish {σ α : Type} (f : σ → α → σ) (Q : σ → Prop)
    (mono : ∀ s a, Q s → Q (f s a)) (a0 : α)
    (est : ∀ s, Q (f s a0)) :
    ∀ (l : List α) (s : σ), a0 ∈ l → Q (l.foldl f s) := by
  intro l
  induction l with
  | nil => intro s h; exact absurd h (by simp)
  | cons a rest ih =>
    intro s h
    rcases List.mem_cons.mp h with h1 | h2
    · subst h1
      exact foldl_preserve f Q mono rest (f s a0) (est s)
    · exact ih (f s a) h2

theorem foldl_fixed {σ α : Type} (f : σ → α → σ) (s : σ) :
    ∀ l : List α, (∀ a ∈ l, f s a = s) → l.foldl f s = s := by
  intro l
  induction l with
  | nil => intro _; rfl
  | cons a rest ih =>
    intro h
    have ha : f s a = s := h a (by simp)
    simp only [List.foldl_cons, ha]
    exact ih (fun x hx => h x (by simp [hx]))

theorem listMap_self {α : Type} (f : α → α) :
    ∀ l : List α, (∀ a ∈ l, f a = a) → l.map f = l := by
  intro l
  induction l with
  | nil => intro _; rfl
  | cons a rest ih =>
    intro h
    have ha : f a = a := h a (by simp)
    simp only [List.map_cons, ha]
    rw [ih (fun x hx => h x (by simp [hx]))]

namespace Streamlit

theorem lookupKey_upsert {β : Type} (m : List (String × β)) (k n : String)
    (v : β) :
    lookupKey (upsert m k v) n = if n = k then some v else lookupKey m n := by
  induction m with
  | nil =>
    simp only [upsert, lookupKey]
    by_cases h : k = n
    · rw [if_pos h, if_pos h.symm]
    · rw [if_neg h, if_neg (fun hn => h hn.symm)]
  | cons e rest ih =>
    obtain ⟨a, b⟩ := e
    simp only [upsert]
    by_cases hak : a = k
    · subst hak
      simp only [if_pos rfl, lookupKey]
      by_cases han : a = n
      · rw [if_pos han, if_pos han.symm]
      · rw [if_neg han, if_neg (fun h => han h.symm), if_neg han]
    · rw [if_neg hak]
      simp only [lookupKey]
      by_cases han : a = n
      · have hnk : ¬ n = k := fun h => hak (han.trans h)
        rw [if_pos han, if_neg hnk, if_pos han]
      · rw [if_neg han, if_neg han, ih]

theorem lookupKey_append_left {β : Type} (m m2 : List (String × β))
    (n : String) (h : (lookupKey m n).isSome) :
    lookupKey (m ++ m2) n = lookupKey m n := by
  induction m with
  | nil => simp [lookupKey] at h
  | cons e rest ih =>
    obtain ⟨a, b⟩ := e
    simp only [List.cons_append, lookupKey] at h ⊢
    by_cases han : a = n
    · simp only [if_pos han]
    · rw [if_neg han] at h ⊢
      rw [if_neg han]
      exact ih h

theorem lookupKey_append_self {β : Type} (m : List (String × β))
    (k : String) (v : β) (h : lookupKey m k = none) :
    lookupKey (m ++ [(k, v)]) k = some v := by
  induction m with
  | nil => simp [lookupKey]
  | cons e rest ih =>
    obtain ⟨a, b⟩ := e
    simp only [List.cons_append, lookupKey] at h ⊢
    by_cases han : a = k
    · rw [if_pos han] at h
      exact absurd h (by simp)
    · rw [if_neg han] at h ⊢
      exact ih h

end Streamlit

namespace Streamlit

theorem seenStep_mono (acc : List (String × String)) (d : Dish) (n : String)
    (h : (lookupKey acc n).isSome) :
    (lookupKey (seenStep acc d) n).isSome := by
  unfold seenStep
  by_cases hd : d.name ≠ ""
  · rw [if_pos hd, lookupKey_upsert]
    by_cases hn : n = d.name
    · rw [if_pos hn]; rfl
    · rw [if_neg hn]; exact h
  · rw [if_neg hd]; exact h

theorem seenFold_mono (props : List Dish) (acc : List (String × String))
    (n : String) (h : (lookupKey acc n).isSome) :
    (lookupKey (props.foldl seenStep acc) n).isSome :=
  foldl_preserve seenStep (fun s => (lookupKey s n).isSome)
    (fun s a hs => seenStep_mono s a n hs) props acc h

theorem build_seen_mem (props : List Dish) (d : Dish) (hd : d ∈ props)
    (hn : d.name ≠ "") :
    (lookupKey (build_seen props) d.name).isSome := by
  unfold build_seen
  refine foldl_establish seenStep (fun s => (lookupKey s d.name).isSome)
    (fun s a hs => seenStep_mono s a _ hs) d ?_ props [] hd
  intro s
  unfold seenStep
  rw [if_pos hn, lookupKey_upsert, if_pos rfl]
  rfl

theorem seenFold_sound (props : List Dish) :
    ∀ (acc : List (String × String)) (n : String),
      (lookupKey (props.foldl seenStep acc) n).isSome →
      (lookupKey acc n).isSome = true ∨
        (n ≠ "" ∧ ∃ d ∈ props, d.name = n) := by
  induction props with
  | nil => intro acc n h; exact Or.inl h
  | cons d rest ih =>
    intro acc n h
    simp only [List.foldl_cons] at h
    rcases ih (seenStep acc d) n h with h1 | h2
    · unfold seenStep at h1
      by_cases hd : d.name ≠ ""
      · rw [if_pos hd, lookupKey_upsert] at h1
        by_cases hn : n = d.name
        · subst hn
          exact Or.inr ⟨hd, d, by simp, rfl⟩
        · rw [if_neg hn] at h1
          exact Or.inl h1
      · rw [if_neg hd] at h1
        exact Or.inl h1
    · obtain ⟨hne, d', hd', hname⟩ := h2
      exact Or.inr ⟨hne, d', by simp [hd'], hname⟩

theorem build_seen_sound (props : List Dish) (n : String)
    (h : (lookupKey (build_seen props) n).isSome) :
    n ≠ "" ∧ ∃ d ∈ props, d.name = n := by
  rcases seenFold_sound props [] n h with h1 | h2
  · simp [lookupKey] at h1
  · exact h2

theorem build_seen_empty (props : List Dish) :
    lookupKey (build_seen props) "" = none := by
  cases h : lookupKey (build_seen props) "" with
  | none => rfl
  | some v =>
    have hs := build_seen_sound props "" (by rw [h]; rfl)
    exact absurd rfl hs.1

end Streamlit

namespace Streamlit

theorem addStep_assigns (gen : Nat → String) (now : String)
    (votes : Option (List String)) (st : MigState) (p : OldProposal) :
    (addStep gen now votes st p).assigns = st.assigns := by
  simp only [addStep]
  split <;> rfl

theorem addStep_seen_mono (gen : Nat → String) (now : String)
    (votes : Option (List String)) (st : MigState) (p : OldProposal)
    (n : String) (h : (lookupKey st.seen n).isSome) :
    (lookupKey (addStep gen now votes st p).seen n).isSome := by
  simp only [addStep]
  split
  · rw [lookupKey_upsert]
    by_cases hn : n = p.dish_name
    · rw [if_pos hn]; rfl
    · rw [if_neg hn]; exact h
  · exact h

theorem addStep_seen_after (gen : Nat → String) (now : String)
    (votes : Option (List String)) (st : MigState) (p : OldProposal)
    (hn : p.dish_name ≠ "") :
    (lookupKey (addStep gen now votes st p).seen p.dish_name).isSome := by
  simp only [addStep]
  split
  · rw [lookupKey_upsert, if_pos rfl]; rfl
  · next hcond =>
    push_neg at hcond
    exact Option.isSome_iff_ne_none.mpr (hcond hn)

theorem addStep_props_mono (gen : Nat → String) (now : String)
    (votes : Option (List String)) (st : MigState) (p : OldProposal)
    (d : Dish) (h : d ∈ st.props) :
    d ∈ (addStep gen now votes st p).props := by
  simp only [addStep]
  split
  · exact List.mem_append.mpr (Or.inl h)
  · exact h

theorem addStep_cat (gen : Nat → String) (now : String)
    (votes : Option (List String)) (st : MigState) (p : OldProposal)
    (h : ∀ x ∈ st.props, x.category.isSome) :
    ∀ x ∈ (addStep gen now votes st p).props, x.category.isSome := by
  simp only [addStep]
  split
  · intro x hx
    rcases List.mem_append.mp hx with h1 | h2
    · exact h x h1
    · have hx2 := List.mem_singleton.mp h2
      subst hx2
      rfl
  · exact h

theorem addStep_sound (gen : Nat → String) (now : String)
    (votes : Option (List String)) (st : MigState) (p : OldProposal)
    (h : ∀ n, (lookupKey st.seen n).isSome →
        n ≠ "" ∧ ∃ d ∈ st.props, d.name = n) :
    ∀ n, (lookupKey (addStep gen now votes st p).seen n).isSome →
      n ≠ "" ∧ ∃ d ∈ (addStep gen now votes st p).props, d.name = n := by
  simp only [addStep]
  split
  · next hcond =>
    intro n hn
    rw [lookupKey_upsert] at hn
    by_cases hnp : n = p.dish_name
    · constructor
      · rw [hnp]
        exact hcond.1
      · refine ⟨{
            id := gen st.k,
            name := p.dish_name,
            category := some "Hauptspeise",
            description := p.description,
            proposed_by := p.proposed_by,
            responsible := p.responsible,
            created_at := p.created_at.getD now,
            votes := votes.getD [] }, ?_, hnp.symm⟩
        exact List.mem_append.mpr (Or.inr (by simp))
    · rw [if_neg hnp] at hn
      obtain ⟨hne, d, hd, hname⟩ := h n hn
      exact ⟨hne, d, List.mem_append.mpr (Or.inl hd), hname⟩
  · exact h

theorem addStep_id (gen : Nat → String) (now : String)
    (votes : Option (List String)) (st : MigState) (p : OldProposal)
    (h : ¬(p.dish_name ≠ "" ∧ lookupKey st.seen p.dish_name = none)) :
    addStep gen now votes st p = st := by
  simp only [addStep]
  rw [if_neg h]

theorem assignStep_seen (day : String) (nprops : Nat) (st : MigState)
    (dn : String) :
    (assignStep day nprops st dn).seen = st.seen := by
  simp only [assignStep]
  split
  · split
    · split <;> rfl
    · rfl
  · rfl

theorem assignStep_props (day : String) (nprops : Nat) (st : MigState)
    (dn : String) :
    (assignStep day nprops st dn).props = st.props := by
  simp only [assignStep]
  split
  · split
    · split <;> rfl
    · rfl
  · rfl

theorem assignStep_assigns_mono (day : String) (nprops : Nat)
    (st : MigState) (dn d2 : String)
    (h : (lookupKey st.assigns d2).isSome) :
    (lookupKey (assignStep day nprops st dn).assigns d2).isSome := by
  simp only [assignStep]
  split
  · split
    · split
      · rw [lookupKey_append_left _ _ _ h]
        exact h
      · exact h
    · exact h
  · exact h

theorem assignStep_after (day : String) (nprops : Nat) (st : MigState)
    (dn : String) (hseen : (lookupKey st.seen dn).isSome)
    (hnp : 0 < nprops) :
    (lookupKey (assignStep day nprops st dn).assigns day).isSome := by
  obtain ⟨v, hv⟩ := Option.isSome_iff_exists.mp hseen
  simp only [assignStep, hv]
  rw [if_pos hnp]
  by_cases ha : lookupKey st.assigns day = none
  · rw [if_pos ha]
    rw [lookupKey_append_self st.assigns day _ ha]
    rfl
  · rw [if_neg ha]
    exact Option.isSome_iff_ne_none.mpr ha

theorem assignStep_id (day : String) (nprops : Nat) (st : MigState)
    (dn : String)
    (h : lookupKey st.seen dn = none ∨ (lookupKey st.assigns day).isSome) :
    assignStep day nprops st dn = st := by
  rcases h with h | h
  · simp only [assignStep, h]
  · simp only [assignStep]
    split
    · by_cases hnp : 0 < nprops
      · rw [if_pos hnp, if_neg (Option.isSome_iff_ne_none.mp h)]
      · rw [if_neg hnp]
    · rfl

end Streamlit

namespace Streamlit

theorem pp_seen_mono (gen : Nat → String) (now day : String)
    (votes : Option (List String)) (nprops : Nat) (st : MigState)
    (p : OldProposal) (n : String) (h : (lookupKey st.seen n).isSome) :
    (lookupKey (process_proposal gen now day votes nprops st p).seen n).isSome := by
  unfold process_proposal
  rw [assignStep_seen]
  exact addStep_seen_mono gen now votes st p n h

theorem pp_assigns_mono (gen : Nat → String) (now day : String)
    (votes : Option (List String)) (nprops : Nat) (st : MigState)
    (p : OldProposal) (d2 : String)
    (h : (lookupKey st.assigns d2).isSome) :
    (lookupKey (process_proposal gen now day votes nprops st p).assigns d2).isSome := by
  unfold process_proposal
  apply assignStep_assigns_mono
  rw [addStep_assigns]
  exact h

theorem pp_props_mono (gen : Nat → String) (now day : String)
    (votes : Option (List String)) (nprops : Nat) (st : MigState)
    (p : OldProposal) (d : Dish) (h : d ∈ st.props) :
    d ∈ (process_proposal gen now day votes nprops st p).props := by
  unfold process_proposal
  rw [assignStep_props]
  exact addStep_props_mono gen now votes st p d h

theorem pp_cat (gen : Nat → String) (now day : String)
    (votes : Option (List String)) (nprops : Nat) (st : MigState)
    (p : OldProposal) (h : ∀ x ∈ st.props, x.category.isSome) :
    ∀ x ∈ (process_proposal gen now day votes nprops st p).props,
      x.category.isSome := by
  unfold process_proposal
  rw [assignStep_props]
  exact addStep_cat gen now votes st p h

theorem pp_sound (gen : Nat → String) (now day : String)
    (votes : Option (List String)) (nprops : Nat) (st : MigState)
    (p : OldProposal)
    (h : ∀ n, (lookupKey st.seen n).isSome →
        n ≠ "" ∧ ∃ d ∈ st.props, d.name = n) :
    ∀ n, (lookupKey (process_proposal gen now day votes nprops st p).seen n).isSome →
      n ≠ "" ∧
      ∃ d ∈ (process_proposal gen now day votes nprops st p).props,
        d.name = n := by
  unfold process_proposal
  rw [assignStep_seen, assignStep_props]
  exact addStep_sound gen now votes st p h

theorem pp_seen_after (gen : Nat → String) (now day : String)
    (votes : Option (List String)) (nprops : Nat) (st : MigState)
    (p : OldProposal) (hn : p.dish_name ≠ "") :
    (lookupKey (process_proposal gen now day votes nprops st p).seen
      p.dish_name).isSome := by
  unfold process_proposal
  rw [assignStep_seen]
  exact addStep_seen_after gen now votes st p hn

theorem pp_assign_after (gen : Nat → String) (now day : String)
    (votes : Option (List String)) (nprops : Nat) (st : MigState)
    (p : OldProposal) (hn : p.dish_name ≠ "") (hnp : 0 < nprops) :
    (lookupKey (process_proposal gen now day votes nprops st p).assigns
      day).isSome := by
  unfold process_proposal
  exact assignStep_after day nprops _ p.dish_name
    (addStep_seen_after gen now votes st p hn) hnp

theorem pp_id (gen : Nat → String) (now day : String)
    (votes : Option (List String)) (nprops : Nat) (st : MigState)
    (p : OldProposal)
    (hempty : lookupKey st.seen "" = none)
    (hseen : p.dish_name ≠ "" → (lookupKey st.seen p.dish_name).isSome)
    (hassign : p.dish_name ≠ "" → (lookupKey st.assigns day).isSome) :
    process_proposal gen now day votes nprops st p = st := by
  unfold process_proposal
  by_cases hn : p.dish_name = ""
  · rw [addStep_id gen now votes st p (by rw [hn]; simp)]
    apply assignStep_id
    rw [hn]
    exact Or.inl hempty
  · have hs := hseen hn
    rw [addStep_id gen now votes st p
      (fun hc => by rw [hc.2] at hs; exact absurd hs (by simp))]
    exact assignStep_id day nprops st p.dish_name (Or.inr (hassign hn))

end Streamlit

namespace Streamlit

theorem pd_seen_mono (gen : Nat → String) (now : String) (st : MigState)
    (entry : String × DayData) (n : String)
    (h : (lookupKey st.seen n).isSome) :
    (lookupKey (process_day gen now st entry).seen n).isSome := by
  unfold process_day
  split
  · next ps hps =>
    split
    · exact foldl_preserve _ (fun s => (lookupKey s.seen n).isSome)
        (fun s a hs => pp_seen_mono gen now entry.1 entry.2.votes
          ps.length s a n hs) ps st h
    · exact h
  · exact h

theorem pd_assigns_mono (gen : Nat → String) (now : String) (st : MigState)
    (entry : String × DayData) (d2 : String)
    (h : (lookupKey st.assigns d2).isSome) :
    (lookupKey (process_day gen now st entry).assigns d2).isSome := by
  unfold process_day
  split
  · next ps hps =>
    split
    · exact foldl_preserve _ (fun s => (lookupKey s.assigns d2).isSome)
        (fun s a hs => pp_assigns_mono gen now entry.1 entry.2.votes
          ps.length s a d2 hs) ps st h
    · exact h
  · exact h

theorem pd_cat (gen : Nat → String) (now : String) (st : MigState)
    (entry : String × DayData)
    (h : ∀ x ∈ st.props, x.category.isSome) :
    ∀ x ∈ (process_day gen now st entry).props, x.category.isSome := by
  unfold process_day
  split
  · next ps hps =>
    split
    · exact foldl_preserve _ (fun s => ∀ x ∈ s.props, x.category.isSome)
        (fun s a hs => pp_cat gen now entry.1 entry.2.votes
          ps.length s a hs) ps st h
    · exact h
  · exact h

theorem pd_sound (gen : Nat → String) (now : String) (st : MigState)
    (entry : String × DayData)
    (h : ∀ n, (lookupKey st.seen n).isSome →
        n ≠ "" ∧ ∃ d ∈ st.props, d.name = n) :
    ∀ n, (lookupKey (process_day gen now st entry).seen n).isSome →
      n ≠ "" ∧ ∃ d ∈ (process_day gen now st entry).props, d.name = n := by
  unfold process_day
  split
  · next ps hps =>
    split
    · exact foldl_preserve _
        (fun s => ∀ n, (lookupKey s.seen n).isSome →
          n ≠ "" ∧ ∃ d ∈ s.props, d.name = n)
        (fun s a hs => pp_sound gen now entry.1 entry.2.votes
          ps.length s a hs) ps st h
    · exact h
  · exact h

theorem pd_seen_after (gen : Nat → String) (now : String)
    (entry : String × DayData) (ps : List OldProposal)
    (hps : entry.2.proposals = some ps) (p : OldProposal) (hp : p ∈ ps)
    (hn : p.dish_name ≠ "") (st : MigState) :
    (lookupKey (process_day gen now st entry).seen p.dish_name).isSome := by
  unfold process_day
  rw [hps]
  dsimp only
  rw [if_pos (List.ne_nil_of_mem hp)]
  exact foldl_establish _ (fun s => (lookupKey s.seen p.dish_name).isSome)
    (fun s a hs => pp_seen_mono gen now entry.1 entry.2.votes
      ps.length s a p.dish_name hs) p
    (fun s => pp_seen_after gen now entry.1 entry.2.votes ps.length s p hn)
    ps st hp

theorem pd_assign_after (gen : Nat → String) (now : String)
    (entry : String × DayData) (ps : List OldProposal)
    (hps : entry.2.proposals = some ps) (p : OldProposal) (hp : p ∈ ps)
    (hn : p.dish_name ≠ "") (st : MigState) :
    (lookupKey (process_day gen now st entry).assigns entry.1).isSome := by
  unfold process_day
  rw [hps]
  dsimp only
  rw [if_pos (List.ne_nil_of_mem hp)]
  exact foldl_establish _ (fun s => (lookupKey s.assigns entry.1).isSome)
    (fun s a hs => pp_assigns_mono gen now entry.1 entry.2.votes
      ps.length s a entry.1 hs) p
    (fun s => pp_assign_after gen now entry.1 entry.2.votes ps.length s p hn
      (List.length_pos.mpr (List.ne_nil_of_mem hp)))
    ps st hp

theorem pd_id (gen : Nat → String) (now : String) (st : MigState)
    (entry : String × DayData)
    (h : ∀ ps, entry.2.proposals = some ps → ∀ p ∈ ps,
        process_proposal gen now entry.1 entry.2.votes ps.length st p = st) :
    process_day gen now st entry = st := by
  unfold process_day
  split
  · next ps hps =>
    split
    · exact foldl_fixed _ st ps (h ps hps)
    · rfl
  · rfl

end Streamlit

namespace Streamlit

theorem mf_cat (gen : Nat → String) (now : String) (st : MigState)
    (meals : Option (List (String × DayData)))
    (h : ∀ x ∈ st.props, x.category.isSome) :
    ∀ x ∈ (mealsFold gen now st meals).props, x.category.isSome := by
  unfold mealsFold
  split
  · next ms =>
    split
    · exact foldl_preserve _ (fun s => ∀ x ∈ s.props, x.category.isSome)
        (fun s a hs => pd_cat gen now s a hs) ms st h
    · exact h
  · exact h

theorem mf_sound (gen : Nat → String) (now : String) (st : MigState)
    (meals : Option (List (String × DayData)))
    (h : ∀ n, (lookupKey st.seen n).isSome →
        n ≠ "" ∧ ∃ d ∈ st.props, d.name = n) :
    ∀ n, (lookupKey (mealsFold gen now st meals).seen n).isSome →
      n ≠ "" ∧ ∃ d ∈ (mealsFold gen now st meals).props, d.name = n := by
  unfold mealsFold
  split
  · next ms =>
    split
    · exact foldl_preserve _
        (fun s => ∀ n, (lookupKey s.seen n).isSome →
          n ≠ "" ∧ ∃ d ∈ s.props, d.name = n)
        (fun s a hs => pd_sound gen now s a hs) ms st h
    · exact h
  · exact h

theorem mf_seen_after (gen : Nat → String) (now : String) (st : MigState)
    (ms : List (String × DayData)) (entry : String × DayData)
    (hentry : entry ∈ ms) (ps : List OldProposal)
    (hps : entry.2.proposals = some ps) (p : OldProposal) (hp : p ∈ ps)
    (hn : p.dish_name ≠ "") :
    (lookupKey (mealsFold gen now st (some ms)).seen p.dish_name).isSome := by
  unfold mealsFold
  dsimp only
  rw [if_pos (List.ne_nil_of_mem hentry)]
  exact foldl_establish _ (fun s => (lookupKey s.seen p.dish_name).isSome)
    (fun s a hs => pd_seen_mono gen now s a p.dish_name hs) entry
    (fun s => pd_seen_after gen now entry ps hps p hp hn s)
    ms st hentry

theorem mf_assign_after (gen : Nat → String) (now : String) (st : MigState)
    (ms : List (String × DayData)) (entry : String × DayData)
    (hentry : entry ∈ ms) (ps : List OldProposal)
    (hps : entry.2.proposals = some ps) (p : OldProposal) (hp : p ∈ ps)
    (hn : p.dish_name ≠ "") :
    (lookupKey (mealsFold gen now st (some ms)).assigns entry.1).isSome := by
  unfold mealsFold
  dsimp only
  rw [if_pos (List.ne_nil_of_mem hentry)]
  exact foldl_establish _ (fun s => (lookupKey s.assigns entry.1).isSome)
    (fun s a hs => pd_assigns_mono gen now s a entry.1 hs) entry
    (fun s => pd_assign_after gen now entry ps hps p hp hn s)
    ms st hentry

theorem mf_id (gen : Nat → String) (now : String) (st : MigState)
    (meals : Option (List (String × DayData)))
    (h : ∀ e ∈ meals.getD [], process_day gen now st e = st) :
    mealsFold gen now st meals = st := by
  unfold mealsFold
  split
  · next ms =>
    split
    · exact foldl_fixed _ st ms (fun e he => h e (by simpa using he))
    · rfl
  · rfl

theorem convert_fst (props : List Dish) (e : String × Assignment) :
    (convert_assignment props e).1 = e.1 := by
  unfold convert_assignment
  split <;> rfl

theorem convert_idem (props props2 : List Dish) (e : String × Assignment) :
    convert_assignment props2 (convert_assignment props e) =
      convert_assignment props e := by
  obtain ⟨a, b⟩ := e
  cases b <;> rfl

theorem lookupKey_map_fst {β : Type} (f : (String × β) → (String × β))
    (hf : ∀ e, (f e).1 = e.1) (n : String) :
    ∀ l : List (String × β),
      (lookupKey (l.map f) n).isSome = (lookupKey l n).isSome := by
  intro l
  induction l with
  | nil => rfl
  | cons e rest ih =>
    obtain ⟨a, b⟩ := e
    simp only [List.map_cons, lookupKey]
    have hfa : (f (a, b)).1 = a := hf (a, b)
    rw [hfa]
    by_cases han : a = n
    · simp only [if_pos han]
      rfl
    · simp only [if_neg han]
      exact ih

theorem lookupKey_map_convert (props : List Dish) (n : String)
    (l : List (String × Assignment)) :
    (lookupKey (l.map (convert_assignment props)) n).isSome =
      (lookupKey l n).isSome :=
  lookupKey_map_fst (convert_assignment props)
    (fun e => convert_fst props e) n l

end Streamlit

theorem listMap_congr {α β : Type} (f g : α → β) :
    ∀ l : List α, (∀ a ∈ l, f a = g a) → l.map f = l.map g := by
  intro l
  induction l with
  | nil => intro _; rfl
  | cons a rest ih =>
    intro h
    simp only [List.map_cons, h a (by simp)]
    rw [ih (fun x hx => h x (by simp [hx]))]

namespace Streamlit

theorem catDefault_cat (d : Dish) : (catDefault d).category.isSome := rfl

theorem catDefault_id (d : Dish) (h : d.category.isSome) :
    catDefault d = d := by
  obtain ⟨c, hc⟩ := Option.isSome_iff_exists.mp h
  unfold catDefault
  rw [hc]
  cases d
  simp only at hc
  subst hc
  rfl

/-- An already-migrated planning document — proposals all categorized, a
dish present for every non-empty legacy proposal name, a day assignment
for every day with such a proposal, and no legacy-format assignment values
— is a fixed point of the migration. -/
theorem migrate_second_id (gen' : Nat → String) (now' : String)
    (P : List Dish) (A : List (String × Assignment))
    (meals : Option (List (String × DayData)))
    (hcat : ∀ x ∈ P, x.category.isSome)
    (hseenP : ∀ entry ∈ meals.getD ([] : List (String × DayData)),
        ∀ ps, entry.2.proposals = some ps → ∀ p ∈ ps,
        p.dish_name ≠ "" → ∃ dd ∈ P, dd.name = p.dish_name)
    (hdayA : ∀ entry ∈ meals.getD ([] : List (String × DayData)),
        ∀ ps, entry.2.proposals = some ps → ∀ p ∈ ps,
        p.dish_name ≠ "" → (lookupKey A entry.1).isSome)
    (hnoold : ∀ e ∈ A, ∀ props2, convert_assignment props2 e = e) :
    migrate_meal_data gen' now' (PlanningDoc.mk (some P) (some A) meals) =
      PlanningDoc.mk (some P) (some A) meals := by
  have hP : P.map catDefault = P :=
    listMap_self catDefault P (fun x hx => catDefault_id x (hcat x hx))
  simp only [migrate_meal_data, Option.getD_some]
  rw [hP]
  have hid : mealsFold gen' now' (MigState.mk P A (build_seen P) 0) meals =
      MigState.mk P A (build_seen P) 0 := by
    apply mf_id
    intro e he
    apply pd_id
    intro ps hps p hp
    apply pp_id
    · exact build_seen_empty P
    · intro hn
      obtain ⟨dd, hdd, hname⟩ := hseenP e he ps hps p hp hn
      have hb := build_seen_mem P dd hdd (by rw [hname]; exact hn)
      rw [hname] at hb
      exact hb
    · intro hn
      exact hdayA e he ps hps p hp hn
  rw [hid]
  have hA : A.map (convert_assignment P) = A :=
    listMap_self _ A (fun e he => hnoold e he P)
  rw [hA]

end Streamlit

/-- C7: the meal-data migration is idempotent — running it a second time
(with any fresh-id supply and timestamp) returns the once-migrated
document unchanged, so re-running adds no duplicate dishes. -/
theorem c7_migration_idempotent (gen gen' : Nat → String)
    (now now' : String) (d : Streamlit.PlanningDoc) :
    Streamlit.migrate_meal_data gen' now'
        (Streamlit.migrate_meal_data gen now d) =
      Streamlit.migrate_meal_data gen now d := by
  apply Streamlit.migrate_second_id
  · apply Streamlit.mf_cat
    intro x hx
    obtain ⟨y, hy, rfl⟩ := List.mem_map.mp hx
    exact Streamlit.catDefault_cat y
  · intro entry he ps hps p hp hn
    have hm : d.meals = some (d.meals.getD []) := by
      cases hmm : d.meals with
      | none =>
        rw [hmm] at he
        exact absurd he (by simp)
      | some ms => rfl
    refine (Streamlit.mf_sound gen now _ d.meals
      (fun n hnn => Streamlit.build_seen_sound _ n hnn) p.dish_name ?_).2
    rw [hm]
    exact Streamlit.mf_seen_after gen now _ _ entry he ps hps p hp hn
  · intro entry he ps hps p hp hn
    have hm : d.meals = some (d.meals.getD []) := by
      cases hmm : d.meals with
      | none =>
        rw [hmm] at he
        exact absurd he (by simp)
      | some ms => rfl
    rw [Streamlit.lookupKey_map_convert]
    rw [hm]
    exact Streamlit.mf_assign_after gen now _ _ entry he ps hps p hp hn
  · intro e he props2
    obtain ⟨e0, he0, rfl⟩ := List.mem_map.mp he
    exact Streamlit.convert_idem _ props2 e0
